import Mathlib

/-!
Verification development for the glass-optimizer repository
(`src/app.py`): a Streamlit sheet-stock optimizer.  The cut-list
ingestion and the utilization statistics are embedded directly from
`src/app.py`; the packing engine itself lives in the external
`rectpack` dependency, so it is modelled from the specification
(maximal-rectangles Best-Short-Side-Fit with a sheet cap).
All real-valued dimensions are modelled as rationals.
-/

namespace GlassOpt

/-! ## Geometry: axis-aligned rectangles -/
/-- An axis-aligned rectangle given by its lower-left corner and size. -/
structure Rect where
  x : ℚ
  y : ℚ
  w : ℚ
  h : ℚ
  deriving DecidableEq, Repr

/-- Area of the intersection of two rectangles (clamped at zero). -/
def interArea (a b : Rect) : ℚ :=
  max 0 (min (a.x + a.w) (b.x + b.w) - max a.x b.x) *
  max 0 (min (a.y + a.h) (b.y + b.h) - max a.y b.y)

/-- Two rectangles are separated along some axis. -/
def RectDisj (a b : Rect) : Prop :=
  a.x + a.w ≤ b.x ∨ b.x + b.w ≤ a.x ∨ a.y + a.h ≤ b.y ∨ b.y + b.h ≤ a.y

/-- `a` is contained in `b` (as closed rectangles, coordinatewise). -/
def RectSub (a b : Rect) : Prop :=
  b.x ≤ a.x ∧ b.y ≤ a.y ∧ a.x + a.w ≤ b.x + b.w ∧ a.y + a.h ≤ b.y + b.h

/-! ## Packing engine

The application calls the external `rectpack` library
(`solve_packing` in `src/app.py` builds an offline packer with the
default maximal-rectangles Best-Short-Side-Fit heuristic and a fixed
number of bins).  The library is not part of the repository sources,
so the engine below is modelled from the specification. -/
/-- Modelled from the spec: one unit of demand, quantity already
expanded; `id` is the piece's index in the input sequence. -/
structure Piece where
  id : ℕ
  w : ℚ
  h : ℚ
  deriving DecidableEq, Repr

/-- Modelled from the spec: the position, dimensions and orientation
at which one piece is fixed on a sheet. -/
structure Placement where
  pieceId : ℕ
  x : ℚ
  y : ℚ
  pw : ℚ
  ph : ℚ
  rotated : Bool
  deriving DecidableEq, Repr

/-- The rectangle occupied by a placement. -/
def prect (p : Placement) : Rect := ⟨p.x, p.y, p.pw, p.ph⟩

/-- Modelled from the spec: a sheet holds its placements and the
current set of maximal free rectangles. -/
structure Sheet where
  placements : List Placement
  freeRects : List Rect
  deriving DecidableEq, Repr

/-- Modelled from the spec: engine configuration (`sheet_width`,
`sheet_height`, `rotation_allowed`, `max_sheets`). -/
structure Config where
  sheetW : ℚ
  sheetH : ℚ
  rotation : Bool
  maxSheets : ℕ
  deriving DecidableEq, Repr

/-- Modelled from the spec: the result, an ordered sequence of sheets
plus the ids of the pieces that could not be placed. -/
structure PackingResult where
  sheets : List Sheet
  unplaced : List ℕ
  deriving DecidableEq, Repr

/-- A scored placement candidate: a free rectangle together with the
orientation in which the piece would be placed into it. -/
structure Cand where
  free : Rect
  pw : ℚ
  ph : ℚ
  rotated : Bool
  deriving DecidableEq, Repr

/-- Modelled from the spec: admissible orientations of a `pw × ph`
piece in one free rectangle (original always; swapped only when
rotation is enabled and the piece is not square). -/
def candsFor (rot : Bool) (pw ph : ℚ) (F : Rect) : List Cand :=
  (if pw ≤ F.w ∧ ph ≤ F.h then [⟨F, pw, ph, false⟩] else []) ++
  (if rot = true ∧ pw ≠ ph ∧ ph ≤ F.w ∧ pw ≤ F.h then [⟨F, ph, pw, true⟩] else [])

/-- Modelled from the spec: all admissible `(free rectangle,
orientation)` candidates over a free-rectangle set. -/
def candidates (rot : Bool) (pw ph : ℚ) : List Rect → List Cand
  | [] => []
  | F :: rest => candsFor rot pw ph F ++ candidates rot pw ph rest

/-- Best-Short-Side-Fit comparison: smaller leftover short side, then
smaller leftover long side, then lower `y`, then lower `x`. -/
def candBetter (c d : Cand) : Bool :=
  let s1 := min (c.free.w - c.pw) (c.free.h - c.ph)
  let l1 := max (c.free.w - c.pw) (c.free.h - c.ph)
  let s2 := min (d.free.w - d.pw) (d.free.h - d.ph)
  let l2 := max (d.free.w - d.pw) (d.free.h - d.ph)
  decide (s1 < s2 ∨ (s1 = s2 ∧ (l1 < l2 ∨ (l1 = l2 ∧
    (c.free.y < d.free.y ∨ (c.free.y = d.free.y ∧ c.free.x < d.free.x))))))

/-- Modelled from the spec: select the best admissible candidate, or
`none` when the piece fits nowhere in this free-rectangle set. -/
def pickBest : List Cand → Option Cand
  | [] => none
  | c :: cs => some (cs.foldl (fun b d => if candBetter d b then d else b) c)

/-- Modelled from the spec: `true` when the two rectangles overlap on
a region of positive area. -/
def intersects (F P : Rect) : Bool :=
  decide (F.x < P.x + P.w ∧ P.x < F.x + F.w ∧ F.y < P.y + P.h ∧ P.y < F.y + F.h)

/-- Modelled from the spec: subtract a placed rectangle `P` from one
free rectangle `F`: if they overlap, `F` is replaced by the up-to-four
leftover strips (below, above, left, right of `P`, clipped to `F`),
discarding degenerate strips; otherwise `F` is kept. -/
def splitFree (P F : Rect) : List Rect :=
  if intersects F P then
    ([⟨F.x, F.y, F.w, P.y - F.y⟩,
      ⟨F.x, P.y + P.h, F.w, F.y + F.h - (P.y + P.h)⟩,
      ⟨F.x, F.y, P.x - F.x, F.h⟩,
      ⟨P.x + P.w, F.y, F.x + F.w - (P.x + P.w), F.h⟩]).filter
      (fun r => decide (0 < r.w ∧ 0 < r.h))
  else [F]

/-- Modelled from the spec: subtract a placed rectangle from every
free rectangle of a sheet. -/
def updateFree (P : Rect) : List Rect → List Rect
  | [] => []
  | F :: rest => splitFree P F ++ updateFree P rest

/-- `a` is contained in `b`, decidably. -/
def containedIn (a b : Rect) : Bool :=
  decide (b.x ≤ a.x ∧ b.y ≤ a.y ∧ a.x + a.w ≤ b.x + b.w ∧ a.y + a.h ≤ b.y + b.h)

/-- Modelled from the spec: prune free rectangles that are proper
subsets of another free rectangle in the same set. -/
def pruneFree (l : List Rect) : List Rect :=
  l.filter (fun r => ¬ l.any (fun s => containedIn r s && decide (r ≠ s)))

/-- Modelled from the spec: try to place one piece on one sheet — pick
the best free rectangle and orientation, place the piece at that free
rectangle's origin corner, and update the free-rectangle set. -/
def tryPlaceOnSheet (rot : Bool) (p : Piece) (s : Sheet) : Option Sheet :=
  match pickBest (candidates rot p.w p.h s.freeRects) with
  | none => none
  | some c =>
    let P : Rect := ⟨c.free.x, c.free.y, c.pw, c.ph⟩
    some ⟨s.placements ++ [⟨p.id, P.x, P.y, P.w, P.h, c.rotated⟩],
          pruneFree (updateFree P s.freeRects)⟩

/-- Modelled from the spec: try the open sheets in creation order and
place the piece on the first sheet that admits it. -/
def tryPlaceOnSheets (rot : Bool) (p : Piece) : List Sheet → Option (List Sheet)
  | [] => none
  | s :: rest =>
    match tryPlaceOnSheet rot p s with
    | some s2 => some (s2 :: rest)
    | none => (tryPlaceOnSheets rot p rest).map (fun l => s :: l)

/-- Modelled from the spec: a fresh sheet starts with no placements
and a single free rectangle spanning the whole sheet. -/
def newSheet (cfg : Config) : Sheet :=
  ⟨[], [⟨0, 0, cfg.sheetW, cfg.sheetH⟩]⟩

/-- Modelled from the spec: place one piece — first sheet with best
fit; otherwise open a new sheet when under the cap; otherwise (cap
reached, or the piece fits no orientation of an empty sheet) record
the piece as unplaced and continue. -/
def placePiece (cfg : Config) (st : PackingResult) (p : Piece) : PackingResult :=
  match tryPlaceOnSheets cfg.rotation p st.sheets with
  | some sheets2 => ⟨sheets2, st.unplaced⟩
  | none =>
    if st.sheets.length < cfg.maxSheets then
      match tryPlaceOnSheet cfg.rotation p (newSheet cfg) with
      | some s2 => ⟨st.sheets ++ [s2], st.unplaced⟩
      | none => ⟨st.sheets, st.unplaced ++ [p.id]⟩
    else ⟨st.sheets, st.unplaced ++ [p.id]⟩

/-- Modelled from the spec: processing priority of a piece —
descending `max(width, height)`, ties by descending area. -/
def pieceGE (a b : Piece) : Bool :=
  decide (max b.w b.h < max a.w a.h ∨
    (max a.w a.h = max b.w b.h ∧ b.w * b.h ≤ a.w * a.h))

/-- Stable insertion into a list sorted by `pieceGE`. -/
def insertPiece (p : Piece) : List Piece → List Piece
  | [] => [p]
  | q :: rest => if pieceGE p q then p :: q :: rest else q :: insertPiece p rest

/-- Modelled from the spec: stable sort of the pieces by descending
`max(width, height)`, then descending area, then input order. -/
def sortPieces : List Piece → List Piece
  | [] => []
  | p :: rest => insertPiece p (sortPieces rest)

/-- Modelled from the spec: the engine — number the input demands,
process them in sorted order, threading the sheet list and the
unplaced set. -/
def pack (cfg : Config) (inputs : List (ℚ × ℚ)) : PackingResult :=
  let pieces := inputs.enum.map (fun q => ⟨q.1, q.2.1, q.2.2⟩ : ℕ × ℚ × ℚ → Piece)
  (sortPieces pieces).foldl (placePiece cfg) ⟨[], []⟩

/-- Invariant of a single sheet: every free rectangle is separated
from every placement, and the placements are pairwise separated. -/
def SheetInv (s : Sheet) : Prop :=
  (∀ F ∈ s.freeRects, ∀ q ∈ s.placements, RectDisj F (prect q)) ∧
  s.placements.Pairwise (fun a b => RectDisj (prect a) (prect b))

/-- Invariant of the whole sheet list. -/
def AllInv (sheets : List Sheet) : Prop := ∀ s ∈ sheets, SheetInv s

/-! ## Conservation -/
/-- The piece ids placed across a sheet list, in order. -/
def placedIds : List Sheet → List ℕ
  | [] => []
  | s :: rest => s.placements.map (fun q => q.pieceId) ++ placedIds rest

/-- The number of placements across a sheet list. -/
def placedCount : List Sheet → ℕ
  | [] => 0
  | s :: rest => s.placements.length + placedCount rest

/-- All piece ids accounted for by a result: placed then unplaced. -/
def resultIds (st : PackingResult) : List ℕ := placedIds st.sheets ++ st.unplaced

/-! ## Orientation fidelity -/
/-- Every placement on the sheets uses the dimensions of one of the
given pieces, either as-is or (only when rotation is enabled) swapped. -/
def OrientFrom (pieces : List Piece) (rot : Bool) (sheets : List Sheet) : Prop :=
  ∀ s ∈ sheets, ∀ pl ∈ s.placements, ∃ p ∈ pieces,
    pl.pieceId = p.id ∧
      ((pl.pw = p.w ∧ pl.ph = p.h ∧ pl.rotated = false) ∨
       (rot = true ∧ pl.pw = p.h ∧ pl.ph = p.w ∧ pl.rotated = true))

/-! ## Cut-list file ingestion (`src/app.py`, upload handler)

The upload handler splits each line on commas, parses
`float(parts[0])`, `float(parts[1])` and `int(parts[2])` (quantity
defaulting to 1 when absent), appends `qty` copies of `(w, h)` to the
session cut list, and catches only `ValueError` to skip such lines.
A comma-separated field is abstracted by how Python parses it. -/
/-- One comma-separated, stripped field of an uploaded line:
`asFloat` is its value when `float(field)` succeeds, `asInt` its value
when `int(field)` succeeds. -/
structure Field where
  asFloat : Option ℚ
  asInt : Option ℤ
  deriving DecidableEq, Repr

/-- A field that parses as a float but not as an integer. -/
def floatF (q : ℚ) : Field := ⟨some q, none⟩

/-- A field that parses both as a float and as an integer. -/
def intF (n : ℤ) (q : ℚ) : Field := ⟨some q, some n⟩

/-- A field that parses neither way, such as a header word. -/
def badF : Field := ⟨none, none⟩

/-- One line of the uploaded file: whether `line.strip()` is empty,
and the stripped comma-separated fields otherwise. -/
structure Line where
  blank : Bool
  fields : List Field
  deriving DecidableEq, Repr

/-- Outcome of the `try` block for one line: the pieces it appends
(empty when a `ValueError` skips the line), or an uncaught
`IndexError`. -/
inductive LineResult where
  | pieces (ps : List (ℚ × ℚ))
  | indexError
  deriving DecidableEq, Repr

/-- The pieces a line result contributes. -/
def piecesOf : LineResult → List (ℚ × ℚ)
  | .pieces ps => ps
  | .indexError => []

/-- The `try` block of the import loop, in Python evaluation order:
index field 0 (IndexError if missing), `float` it (ValueError skips
the line), index field 1 (IndexError if missing), `float` it, then
`int(parts[2]) if len(parts) > 2 else 1`, and append `qty` copies. -/
def processLine (parts : List Field) : LineResult :=
  match parts[0]? with
  | none => .indexError
  | some f0 =>
    match f0.asFloat with
    | none => .pieces []
    | some w =>
      match parts[1]? with
      | none => .indexError
      | some f1 =>
        match f1.asFloat with
        | none => .pieces []
        | some h =>
          match (if 2 < parts.length then parts[2]?.bind (fun f => f.asInt)
                 else some 1) with
          | none => .pieces []
          | some qty => .pieces (List.replicate qty.toNat (w, h))

/-- The import loop over the file's lines: blank lines are skipped,
`ValueError` lines contribute nothing, and an `IndexError` (caught
nowhere) aborts the whole import. -/
def processLines (acc : List (ℚ × ℚ)) :
    List Line → Except Unit (List (ℚ × ℚ))
  | [] => .ok acc
  | l :: rest =>
    if l.blank then processLines acc rest
    else
      match processLine l.fields with
      | .indexError => .error ()
      | .pieces ps => processLines (acc ++ ps) rest

/-- The `Process Uploaded File` handler: the existing session cut
list is cleared (`st.session_state.cut_list = []`) before the import
loop runs, so the prior list is discarded. -/
def processUpload (prior : List (ℚ × ℚ)) (lines : List Line) :
    Except Unit (List (ℚ × ℚ)) :=
  let cleared : List (ℚ × ℚ) := []
  processLines cleared lines

/-- The pieces parsed from the non-blank lines of a file, in order. -/
def parsedPieces : List Line → List (ℚ × ℚ)
  | [] => []
  | l :: rest =>
    (if l.blank then [] else piecesOf (processLine l.fields)) ++ parsedPieces rest

/-! ## Utilization statistics (`src/app.py`, `draw_results` and the
summary block) -/
/-- One row of the summary table built by `draw_results`. -/
structure SummaryRow where
  sheetNo : ℕ
  itemsPacked : ℕ
  usedArea : ℚ
  totalArea : ℚ
  utilizationPct : ℚ
  wastePct : ℚ
  deriving DecidableEq, Repr

/-- The summary row for one non-empty bin, mirroring the per-bin loop:
`used_area` accumulated over the bin's rectangles, `item_count` their
number, `total_area = SHEET_W * SHEET_H`,
`utilization = used_area / total_area`, the utilization percentage
`utilization * 100`, and `waste_percent = 100 - utilization * 100`. -/
def binRow (W H : ℚ) (idx : ℕ) (abin : List Rect) : SummaryRow :=
  let used := abin.foldl (fun acc r => acc + r.w * r.h) 0
  let total := W * H
  let util := used / total
  ⟨idx + 1, abin.length, used, total, util * 100, 100 - util * 100⟩

/-- The summary rows of `draw_results`: one per bin in order, skipping
every bin with `len(abin) == 0`. -/
def drawResults (W H : ℚ) (bins : List (List Rect)) : List SummaryRow :=
  (bins.enum.filter (fun q => !decide (q.2.length = 0))).map
    (fun q => binRow W H q.1 q.2)

/-- The overall-utilization metric of the summary block: computed only
under the `if summary_data:` guard, as the grand total of used area
over the grand total of stock area, times 100. -/
def overallUtilization (rows : List SummaryRow) : Option ℚ :=
  if rows.isEmpty then none
  else some ((rows.map (fun r => r.usedArea)).sum /
             (rows.map (fun r => r.totalArea)).sum * 100)

/-- The bins the application hands to the rendering and summary code:
one list of placed rectangles per sheet of the result. -/
def resultBins (r : PackingResult) : List (List Rect) :=
  r.sheets.map (fun s => s.placements.map prect)

/-- What the results summary displays after a run: the unconditional
success line carries the packed count, the total count and the
sheets-used count; `unplacedError` is the count shown by the error
line, which is emitted only when some pieces did not pack. -/
structure ResultsReport where
  packedItems : ℕ
  totalItems : ℕ
  sheetsUsed : ℕ
  unplacedError : Option ℕ
  deriving DecidableEq, Repr

/-- The results summary of the main display: `packed_items` summed as
`len(abin)` over the packer's bins, the success message always showing
`packed_items`, `len(cut_list)` and `len(figures)` (one figure per
non-empty bin), and the error message showing
`len(cut_list) - packed_items` only when `packed_items` is smaller. -/
def reportResults (bins : List (List Rect)) (total : ℕ) : ResultsReport :=
  let packed := bins.foldl (fun acc abin => acc + abin.length) 0
  ⟨packed, total,
    (bins.filter (fun b => !decide (b.length = 0))).length,
    if packed < total then some (total - packed) else none⟩

/-- Every sheet of a run carries at least one placement (sheets are
only opened by a successful placement). -/
def AllNonempty (sheets : List Sheet) : Prop := ∀ s ∈ sheets, s.placements ≠ []

theorem RectDisj.symm {a b : Rect} (h : RectDisj a b) : RectDisj b a := by
  rcases h with h | h | h | h
  · exact Or.inr (Or.inl h)
  · exact Or.inl h
  · exact Or.inr (Or.inr (Or.inr h))
  · exact Or.inr (Or.inr (Or.inl h))

theorem RectSub.refl (a : Rect) : RectSub a a :=
  ⟨le_refl _, le_refl _, le_refl _, le_refl _⟩

/-- Disjointness transfers down containment: a sub-rectangle of a
rectangle disjoint from `c` is itself disjoint from `c`. -/
theorem RectDisj.of_sub {a b c : Rect} (hs : RectSub a b) (hd : RectDisj b c) :
    RectDisj a c := by
  obtain ⟨h1, h2, h3, h4⟩ := hs
  rcases hd with h | h | h | h
  · exact Or.inl (le_trans h3 h)
  · exact Or.inr (Or.inl (le_trans h h1))
  · exact Or.inr (Or.inr (Or.inl (le_trans h4 h)))
  · exact Or.inr (Or.inr (Or.inr (le_trans h h2)))

/-- Separated rectangles have a zero-area intersection. -/
theorem interArea_eq_zero_of_disj {a b : Rect} (h : RectDisj a b) :
    interArea a b = 0 := by
  unfold interArea
  rcases h with h | h | h | h
  · have hx : min (a.x + a.w) (b.x + b.w) - max a.x b.x ≤ 0 := by
      have := min_le_left (a.x + a.w) (b.x + b.w)
      have := le_max_right a.x b.x
      linarith
    rw [max_eq_left hx, zero_mul]
  · have hx : min (a.x + a.w) (b.x + b.w) - max a.x b.x ≤ 0 := by
      have := min_le_right (a.x + a.w) (b.x + b.w)
      have := le_max_left a.x b.x
      linarith
    rw [max_eq_left hx, zero_mul]
  · have hy : min (a.y + a.h) (b.y + b.h) - max a.y b.y ≤ 0 := by
      have := min_le_left (a.y + a.h) (b.y + b.h)
      have := le_max_right a.y b.y
      linarith
    rw [max_eq_left hy, mul_zero]
  · have hy : min (a.y + a.h) (b.y + b.h) - max a.y b.y ≤ 0 := by
      have := min_le_right (a.y + a.h) (b.y + b.h)
      have := le_max_left a.y b.y
      linarith
    rw [max_eq_left hy, mul_zero]

/-! ## Engine invariants -/
/-- Any candidate generated for one free rectangle uses that rectangle,
fits inside it, and is one of the two allowed orientations. -/
theorem mem_candsFor {rot : Bool} {pw ph : ℚ} {F : Rect} {c : Cand}
    (h : c ∈ candsFor rot pw ph F) :
    c.free = F ∧ c.pw ≤ F.w ∧ c.ph ≤ F.h ∧
      ((c.pw = pw ∧ c.ph = ph ∧ c.rotated = false) ∨
       (rot = true ∧ c.pw = ph ∧ c.ph = pw ∧ c.rotated = true)) := by
  unfold candsFor at h
  rcases List.mem_append.1 h with h1 | h1
  · split at h1
    case isTrue hc =>
      rw [List.mem_singleton] at h1
      subst h1
      exact ⟨rfl, hc.1, hc.2, Or.inl ⟨rfl, rfl, rfl⟩⟩
    case isFalse => simp at h1
  · split at h1
    case isTrue hc =>
      rw [List.mem_singleton] at h1
      subst h1
      exact ⟨rfl, hc.2.2.1, hc.2.2.2, Or.inr ⟨hc.1, rfl, rfl, rfl⟩⟩
    case isFalse => simp at h1

/-- Candidate soundness over a whole free-rectangle set. -/
theorem mem_candidates {rot : Bool} {pw ph : ℚ} {c : Cand} :
    ∀ {l : List Rect}, c ∈ candidates rot pw ph l →
      c.free ∈ l ∧ c.pw ≤ c.free.w ∧ c.ph ≤ c.free.h ∧
        ((c.pw = pw ∧ c.ph = ph ∧ c.rotated = false) ∨
         (rot = true ∧ c.pw = ph ∧ c.ph = pw ∧ c.rotated = true)) := by
  intro l h
  induction l with
  | nil => cases h
  | cons F rest ih =>
    rcases List.mem_append.1 h with h1 | h1
    · obtain ⟨he, h2, h3, h4⟩ := mem_candsFor h1
      exact ⟨he ▸ List.mem_cons_self F rest, he ▸ h2, he ▸ h3, h4⟩
    · obtain ⟨h1', h2, h3, h4⟩ := ih h1
      exact ⟨List.mem_cons_of_mem F h1', h2, h3, h4⟩

/-- A fold that repeatedly chooses between the accumulator and the next
element stays inside the candidate pool. -/
theorem foldl_choice_mem {α : Type} (f : α → α → Bool) :
    ∀ (cs : List α) (c : α),
      cs.foldl (fun b d => if f d b then d else b) c ∈ c :: cs := by
  intro cs
  induction cs with
  | nil => intro c; simp
  | cons d ds ih =>
    intro c
    simp only [List.foldl_cons]
    by_cases h : f d c = true
    · rw [if_pos h]
      exact List.mem_cons_of_mem _ (ih d)
    · rw [if_neg h]
      rcases List.mem_cons.1 (ih c) with h1 | h1
      · rw [h1]
        exact List.mem_cons_self _ _
      · exact List.mem_cons_of_mem _ (List.mem_cons_of_mem _ h1)

/-- The selected best candidate is one of the candidates. -/
theorem pickBest_mem {l : List Cand} {c : Cand} (h : pickBest l = some c) :
    c ∈ l := by
  cases l with
  | nil => cases h
  | cons c0 cs =>
    unfold pickBest at h
    have := foldl_choice_mem candBetter cs c0
    rw [Option.some.injEq] at h
    exact h ▸ this

/-- Every strip produced by subtracting `P` from `F` is contained in
`F` and separated from `P`. -/
theorem splitFree_sub_disj {P F G : Rect} (h : G ∈ splitFree P F) :
    RectSub G F ∧ RectDisj G P := by
  unfold splitFree at h
  split at h
  case isTrue hc =>
    rw [intersects, decide_eq_true_iff] at hc
    obtain ⟨h1, h2, h3, h4⟩ := hc
    replace h := List.mem_of_mem_filter h
    simp only [List.mem_cons, List.not_mem_nil, or_false] at h
    rcases h with rfl | rfl | rfl | rfl
    · refine ⟨⟨le_refl _, le_refl _, le_refl _, ?_⟩, ?_⟩
      · simp only []
        linarith
      · exact Or.inr (Or.inr (Or.inl (by simp only []; linarith)))
    · refine ⟨⟨le_refl _, by simp only []; linarith, le_refl _, ?_⟩, ?_⟩
      · simp only []
        linarith
      · exact Or.inr (Or.inr (Or.inr (by simp only []; linarith)))
    · refine ⟨⟨le_refl _, le_refl _, ?_, le_refl _⟩, ?_⟩
      · simp only []
        linarith
      · exact Or.inl (by simp only []; linarith)
    · refine ⟨⟨by simp only []; linarith, le_refl _, ?_, le_refl _⟩, ?_⟩
      · simp only []
        linarith
      · exact Or.inr (Or.inl (by simp only []; linarith))
  case isFalse hc =>
    rw [List.mem_singleton] at h
    subst h
    rw [intersects, decide_eq_true_iff] at hc
    push_neg at hc
    refine ⟨RectSub.refl G, ?_⟩
    by_cases k1 : G.x < P.x + P.w
    · by_cases k2 : P.x < G.x + G.w
      · by_cases k3 : G.y < P.y + P.h
        · exact Or.inr (Or.inr (Or.inl (hc k1 k2 k3)))
        · exact Or.inr (Or.inr (Or.inr (not_lt.1 k3)))
      · exact Or.inl (not_lt.1 k2)
    · exact Or.inr (Or.inl (not_lt.1 k1))

/-- Membership in the updated free-rectangle set comes from splitting
one of the old free rectangles. -/
theorem mem_updateFree {P : Rect} :
    ∀ {l : List Rect} {G : Rect}, G ∈ updateFree P l →
      ∃ F ∈ l, G ∈ splitFree P F := by
  intro l
  induction l with
  | nil => intro G h; cases h
  | cons F rest ih =>
    intro G h
    rcases List.mem_append.1 h with h1 | h1
    · exact ⟨F, List.mem_cons_self F rest, h1⟩
    · obtain ⟨F2, hF2, hG⟩ := ih h1
      exact ⟨F2, List.mem_cons_of_mem F hF2, hG⟩

/-- Pruning only removes free rectangles. -/
theorem mem_pruneFree {l : List Rect} {G : Rect} (h : G ∈ pruneFree l) :
    G ∈ l :=
  List.mem_of_mem_filter h

theorem newSheet_inv (cfg : Config) : SheetInv (newSheet cfg) := by
  constructor
  · intro F _ q hq
    cases hq
  · exact List.Pairwise.nil

/-- Placing a piece on a sheet preserves the sheet invariant. -/
theorem tryPlaceOnSheet_inv {rot : Bool} {p : Piece} {s s2 : Sheet}
    (h : tryPlaceOnSheet rot p s = some s2) (hs : SheetInv s) : SheetInv s2 := by
  unfold tryPlaceOnSheet at h
  cases hp : pickBest (candidates rot p.w p.h s.freeRects) with
  | none =>
    rw [hp] at h
    cases h
  | some c =>
    rw [hp] at h
    obtain ⟨hfree, hfw, hfh, _⟩ := mem_candidates (pickBest_mem hp)
    rw [Option.some.injEq] at h
    subst h
    have hsubP : RectSub ⟨c.free.x, c.free.y, c.pw, c.ph⟩ c.free :=
      ⟨le_refl _, le_refl _, add_le_add_left hfw _, add_le_add_left hfh _⟩
    constructor
    · intro F hF q hq
      obtain ⟨F0, hF0, hsplit⟩ := mem_updateFree (mem_pruneFree hF)
      obtain ⟨hsub, hdisj⟩ := splitFree_sub_disj hsplit
      rcases List.mem_append.1 hq with hq1 | hq1
      · exact (hs.1 F0 hF0 q hq1).of_sub hsub |>.symm.symm
      · rw [List.mem_singleton] at hq1
        subst hq1
        exact hdisj
    · rw [List.pairwise_append]
      refine ⟨hs.2, List.pairwise_singleton _ _, ?_⟩
      intro a ha b hb
      rw [List.mem_singleton] at hb
      subst hb
      exact (RectDisj.of_sub hsubP (hs.1 c.free hfree a ha)).symm

theorem tryPlaceOnSheets_inv {rot : Bool} {p : Piece} :
    ∀ {ss ss2 : List Sheet}, tryPlaceOnSheets rot p ss = some ss2 →
      AllInv ss → AllInv ss2 := by
  intro ss
  induction ss with
  | nil =>
    intro ss2 h
    cases h
  | cons s rest ih =>
    intro ss2 h hall
    unfold tryPlaceOnSheets at h
    cases hts : tryPlaceOnSheet rot p s with
    | some s2 =>
      rw [hts, Option.some.injEq] at h
      subst h
      intro t ht
      rcases List.mem_cons.1 ht with rfl | ht2
      · exact tryPlaceOnSheet_inv hts (hall s (List.mem_cons_self _ _))
      · exact hall t (List.mem_cons_of_mem _ ht2)
    | none =>
      rw [hts] at h
      cases hrest : tryPlaceOnSheets rot p rest with
      | none =>
        rw [hrest] at h
        cases h
      | some l2 =>
        rw [hrest, Option.map_some', Option.some.injEq] at h
        subst h
        have hrest2 : AllInv l2 :=
          ih hrest (fun t ht => hall t (List.mem_cons_of_mem _ ht))
        intro t ht
        rcases List.mem_cons.1 ht with rfl | ht2
        · exact hall t (List.mem_cons_self _ _)
        · exact hrest2 t ht2

/-- Placing one piece preserves the invariant of the sheet list. -/
theorem placePiece_inv {cfg : Config} {st : PackingResult} {p : Piece}
    (h : AllInv st.sheets) : AllInv (placePiece cfg st p).sheets := by
  unfold placePiece
  cases hts : tryPlaceOnSheets cfg.rotation p st.sheets with
  | some sheets2 => exact tryPlaceOnSheets_inv hts h
  | none =>
    by_cases hlt : st.sheets.length < cfg.maxSheets
    · rw [if_pos hlt]
      cases hns : tryPlaceOnSheet cfg.rotation p (newSheet cfg) with
      | some s2 =>
        dsimp only
        intro t ht
        rcases List.mem_append.1 ht with ht1 | ht1
        · exact h t ht1
        · rw [List.mem_singleton] at ht1
          subst ht1
          exact tryPlaceOnSheet_inv hns (newSheet_inv cfg)
      | none => exact h
    · rw [if_neg hlt]
      exact h

theorem foldl_inv (cfg : Config) :
    ∀ (ps : List Piece) (st : PackingResult), AllInv st.sheets →
      AllInv ((ps.foldl (placePiece cfg) st).sheets) := by
  intro ps
  induction ps with
  | nil => intro st h; exact h
  | cons p rest ih =>
    intro st h
    exact ih (placePiece cfg st p) (placePiece_inv h)

/-- Claim C1: for every packing run, on every sheet of the result, every
pair of distinct placements has a zero-area rectangle intersection —
no two placed pieces overlap. -/
theorem c1_no_overlap (cfg : Config) (inputs : List (ℚ × ℚ)) :
    (pack cfg inputs).sheets.Forall
      (fun s => s.placements.Pairwise
        (fun a b => interArea (prect a) (prect b) = 0)) := by
  rw [List.forall_iff_forall_mem]
  intro s hs
  have hinv : AllInv (pack cfg inputs).sheets := by
    unfold pack
    apply foldl_inv
    intro t ht
    cases ht
  exact ((hinv s hs).2).imp interArea_eq_zero_of_disj

theorem placedIds_length : ∀ ss : List Sheet, (placedIds ss).length = placedCount ss
  | [] => rfl
  | s :: rest => by
    simp [placedIds, placedCount, placedIds_length rest]

theorem placedIds_append : ∀ l1 l2 : List Sheet,
    placedIds (l1 ++ l2) = placedIds l1 ++ placedIds l2
  | [], _ => rfl
  | s :: rest, l2 => by
    simp [placedIds, placedIds_append rest l2]

/-- A successful placement appends exactly one placement, carrying the
piece's id, to the sheet. -/
theorem tryPlaceOnSheet_placements {rot : Bool} {p : Piece} {s s2 : Sheet}
    (h : tryPlaceOnSheet rot p s = some s2) :
    ∃ pl : Placement, pl.pieceId = p.id ∧ s2.placements = s.placements ++ [pl] := by
  unfold tryPlaceOnSheet at h
  cases hp : pickBest (candidates rot p.w p.h s.freeRects) with
  | none =>
    rw [hp] at h
    cases h
  | some c =>
    rw [hp, Option.some.injEq] at h
    subst h
    exact ⟨⟨p.id, c.free.x, c.free.y, c.pw, c.ph, c.rotated⟩, rfl, rfl⟩

theorem tryPlaceOnSheets_ids {rot : Bool} {p : Piece} :
    ∀ {ss ss2 : List Sheet}, tryPlaceOnSheets rot p ss = some ss2 →
      (placedIds ss2).Perm (p.id :: placedIds ss) := by
  intro ss
  induction ss with
  | nil =>
    intro ss2 h
    cases h
  | cons s rest ih =>
    intro ss2 h
    unfold tryPlaceOnSheets at h
    cases hts : tryPlaceOnSheet rot p s with
    | some s2 =>
      rw [hts, Option.some.injEq] at h
      subst h
      obtain ⟨pl, hid, hpl⟩ := tryPlaceOnSheet_placements hts
      show (s2.placements.map (fun q => q.pieceId) ++ placedIds rest).Perm _
      rw [hpl, List.map_append, List.append_assoc]
      simp only [List.map_cons, List.map_nil, hid]
      exact List.perm_middle
    | none =>
      rw [hts] at h
      cases hrest : tryPlaceOnSheets rot p rest with
      | none =>
        rw [hrest] at h
        cases h
      | some l2 =>
        rw [hrest, Option.map_some', Option.some.injEq] at h
        subst h
        show (s.placements.map (fun q => q.pieceId) ++ placedIds l2).Perm _
        exact (List.Perm.append_left _ (ih hrest)).trans List.perm_middle

theorem placePiece_ids (cfg : Config) (st : PackingResult) (p : Piece) :
    (resultIds (placePiece cfg st p)).Perm (p.id :: resultIds st) := by
  unfold placePiece
  cases hts : tryPlaceOnSheets cfg.rotation p st.sheets with
  | some sheets2 =>
    show (placedIds sheets2 ++ st.unplaced).Perm _
    exact ((tryPlaceOnSheets_ids hts).append_right st.unplaced)
  | none =>
    by_cases hlt : st.sheets.length < cfg.maxSheets
    · rw [if_pos hlt]
      cases hns : tryPlaceOnSheet cfg.rotation p (newSheet cfg) with
      | some s2 =>
        obtain ⟨pl, hid, hpl⟩ := tryPlaceOnSheet_placements hns
        have hone : placedIds [s2] = [p.id] := by
          simp [placedIds, hpl, newSheet, hid]
        show (placedIds (st.sheets ++ [s2]) ++ st.unplaced).Perm _
        rw [placedIds_append, hone, List.append_assoc]
        exact List.perm_middle
      | none =>
        show (placedIds st.sheets ++ (st.unplaced ++ [p.id])).Perm _
        rw [← List.append_assoc]
        exact List.perm_append_singleton p.id _
    · rw [if_neg hlt]
      show (placedIds st.sheets ++ (st.unplaced ++ [p.id])).Perm _
      rw [← List.append_assoc]
      exact List.perm_append_singleton p.id _

theorem foldl_ids (cfg : Config) :
    ∀ (ps : List Piece) (st : PackingResult),
      (resultIds (ps.foldl (placePiece cfg) st)).Perm
        (ps.map (fun q => q.id) ++ resultIds st) := by
  intro ps
  induction ps with
  | nil =>
    intro st
    exact List.Perm.refl _
  | cons p rest ih =>
    intro st
    show (resultIds (rest.foldl (placePiece cfg) (placePiece cfg st p))).Perm _
    refine ((ih (placePiece cfg st p)).trans ?_)
    refine (List.Perm.append_left _ (placePiece_ids cfg st p)).trans ?_
    exact List.perm_middle

theorem insertPiece_perm (p : Piece) :
    ∀ l : List Piece, (insertPiece p l).Perm (p :: l)
  | [] => List.Perm.refl _
  | q :: rest => by
    unfold insertPiece
    by_cases h : pieceGE p q = true
    · rw [if_pos h]
    · rw [if_neg h]
      exact ((insertPiece_perm p rest).cons q).trans (List.Perm.swap p q rest)

theorem sortPieces_perm : ∀ l : List Piece, (sortPieces l).Perm l
  | [] => List.Perm.refl _
  | p :: rest =>
    (insertPiece_perm p (sortPieces rest)).trans ((sortPieces_perm rest).cons p)

/-- The multiset of piece ids of a run's result — placed ids followed
by unplaced ids — is exactly the input index range: every input piece
ends up in exactly one of the two, none duplicated, none dropped. -/
theorem pack_ids_perm (cfg : Config) (inputs : List (ℚ × ℚ)) :
    (resultIds (pack cfg inputs)).Perm (List.range inputs.length) := by
  unfold pack
  refine (foldl_ids cfg _ ⟨[], []⟩).trans ?_
  simp only [resultIds, placedIds, List.append_nil]
  have h1 : ((sortPieces (inputs.enum.map
      (fun q => (⟨q.1, q.2.1, q.2.2⟩ : Piece)))).map (fun q => q.id)).Perm
      ((inputs.enum.map (fun q => (⟨q.1, q.2.1, q.2.2⟩ : Piece))).map
        (fun q => q.id)) :=
    (sortPieces_perm _).map _
  refine h1.trans ?_
  rw [List.map_map]
  have h2 : inputs.enum.map ((fun q : Piece => q.id) ∘
      (fun q : ℕ × ℚ × ℚ => (⟨q.1, q.2.1, q.2.2⟩ : Piece))) =
      inputs.enum.map Prod.fst := rfl
  rw [h2, List.enum_map_fst]

/-- The number of placements plus the number of unplaced ids equals
the number of input pieces. -/
theorem pack_count (cfg : Config) (inputs : List (ℚ × ℚ)) :
    placedCount (pack cfg inputs).sheets + (pack cfg inputs).unplaced.length
      = inputs.length := by
  have h := (pack_ids_perm cfg inputs).length_eq
  rw [List.length_range] at h
  rw [← h]
  show placedCount _ + _ = (placedIds _ ++ _).length
  rw [List.length_append, placedIds_length]

theorem tryPlaceOnSheets_nonempty {rot : Bool} {p : Piece} :
    ∀ {ss ss2 : List Sheet}, tryPlaceOnSheets rot p ss = some ss2 →
      AllNonempty ss → AllNonempty ss2 := by
  intro ss
  induction ss with
  | nil =>
    intro ss2 h
    cases h
  | cons s rest ih =>
    intro ss2 h hall
    unfold tryPlaceOnSheets at h
    cases hts : tryPlaceOnSheet rot p s with
    | some s2 =>
      rw [hts, Option.some.injEq] at h
      subst h
      obtain ⟨pl, _, hpl⟩ := tryPlaceOnSheet_placements hts
      intro t ht
      rcases List.mem_cons.1 ht with rfl | ht2
      · rw [hpl]
        simp
      · exact hall t (List.mem_cons_of_mem _ ht2)
    | none =>
      rw [hts] at h
      cases hrest : tryPlaceOnSheets rot p rest with
      | none =>
        rw [hrest] at h
        cases h
      | some l2 =>
        rw [hrest, Option.map_some', Option.some.injEq] at h
        subst h
        have h2 : AllNonempty l2 :=
          ih hrest (fun t ht => hall t (List.mem_cons_of_mem _ ht))
        intro t ht
        rcases List.mem_cons.1 ht with rfl | ht2
        · exact hall t (List.mem_cons_self _ _)
        · exact h2 t ht2

theorem placePiece_nonempty {cfg : Config} {st : PackingResult} {p : Piece}
    (h : AllNonempty st.sheets) : AllNonempty (placePiece cfg st p).sheets := by
  unfold placePiece
  cases hts : tryPlaceOnSheets cfg.rotation p st.sheets with
  | some sheets2 => exact tryPlaceOnSheets_nonempty hts h
  | none =>
    by_cases hlt : st.sheets.length < cfg.maxSheets
    · rw [if_pos hlt]
      cases hns : tryPlaceOnSheet cfg.rotation p (newSheet cfg) with
      | some s2 =>
        obtain ⟨pl, _, hpl⟩ := tryPlaceOnSheet_placements hns
        dsimp only
        intro t ht
        rcases List.mem_append.1 ht with ht1 | ht1
        · exact h t ht1
        · rw [List.mem_singleton] at ht1
          subst ht1
          rw [hpl]
          simp [newSheet]
      | none => exact h
    · rw [if_neg hlt]
      exact h

theorem foldl_nonempty (cfg : Config) :
    ∀ (ps : List Piece) (st : PackingResult), AllNonempty st.sheets →
      AllNonempty ((ps.foldl (placePiece cfg) st).sheets) := by
  intro ps
  induction ps with
  | nil =>
    intro st h
    exact h
  | cons p rest ih =>
    intro st h
    exact ih (placePiece cfg st p) (placePiece_nonempty h)

theorem pack_nonempty (cfg : Config) (inputs : List (ℚ × ℚ)) :
    AllNonempty (pack cfg inputs).sheets := by
  unfold pack
  apply foldl_nonempty
  intro t ht
  cases ht

/-- Summing `len(abin)` over the result's bins counts the placements. -/
theorem foldl_len_sum :
    ∀ (ss : List Sheet) (a : ℕ),
      (ss.map (fun s => s.placements.map prect)).foldl
          (fun acc b => acc + b.length) a
        = a + placedCount ss := by
  intro ss
  induction ss with
  | nil =>
    intro a
    rfl
  | cons s rest ih =>
    intro a
    simp only [List.map_cons, List.foldl_cons, List.length_map]
    rw [ih]
    show _ = a + (s.placements.length + placedCount rest)
    omega

/-- With every sheet non-empty, the figure filter keeps every bin. -/
theorem nonempty_filter_eq :
    ∀ {ss : List Sheet}, AllNonempty ss →
      (ss.map (fun s => s.placements.map prect)).filter
          (fun b => !decide (b.length = 0))
        = ss.map (fun s => s.placements.map prect) := by
  intro ss
  induction ss with
  | nil =>
    intro _
    rfl
  | cons s rest ih =>
    intro h
    simp only [List.map_cons, List.filter_cons]
    have hcond : (!decide ((s.placements.map prect).length = 0)) = true := by
      simp only [List.length_map, Bool.not_eq_true', decide_eq_false_iff_not,
        List.length_eq_zero]
      exact h s (List.mem_cons_self _ _)
    rw [if_pos hcond, ih (fun t ht => h t (List.mem_cons_of_mem _ ht))]

/-- Claim C2 counterexample: on a fully packed run the success line
reports the packed count and the sheets-used count, but no unplaced
count is reported — the error line carrying it is emitted only when
some pieces did not pack. -/
theorem c2_cex :
    (reportResults [[(⟨0, 0, 24, 24⟩ : Rect)]] 1).packedItems = 1 ∧
      (reportResults [[(⟨0, 0, 24, 24⟩ : Rect)]] 1).sheetsUsed = 1 ∧
      (reportResults [[(⟨0, 0, 24, 24⟩ : Rect)]] 1).unplacedError = none ∧
      (none : Option ℕ) ≠ some 0 := by
  refine ⟨rfl, rfl, rfl, ?_⟩
  intro h
  cases h

/-- Claim C2 amended: for every input cut list, the piece ids placed
across all sheets plus the unplaced ids form a permutation of the
input indices — placed plus unplaced counts equal the input count and
no piece is duplicated or silently dropped; the application's
unconditional success line reports the true packed count, the total
count and the true sheets-used count, while the explicit unplaced
count is reported exactly when it is nonzero, and then equals the
number of unplaced pieces. -/
theorem c2_reporting (cfg : Config) (inputs : List (ℚ × ℚ)) :
    ((placedIds (pack cfg inputs).sheets) ++ (pack cfg inputs).unplaced).Perm
        (List.range inputs.length) ∧
      placedCount (pack cfg inputs).sheets + (pack cfg inputs).unplaced.length
        = inputs.length ∧
      (reportResults (resultBins (pack cfg inputs)) inputs.length).packedItems
        = placedCount (pack cfg inputs).sheets ∧
      (reportResults (resultBins (pack cfg inputs)) inputs.length).totalItems
        = inputs.length ∧
      (reportResults (resultBins (pack cfg inputs)) inputs.length).sheetsUsed
        = (pack cfg inputs).sheets.length ∧
      (reportResults (resultBins (pack cfg inputs)) inputs.length).unplacedError
        = (if (pack cfg inputs).unplaced.length = 0 then none
           else some ((pack cfg inputs).unplaced.length)) := by
  have hcount := pack_count cfg inputs
  have hne := pack_nonempty cfg inputs
  have hp2 : (resultBins (pack cfg inputs)).foldl (fun acc b => acc + b.length) 0
      = placedCount (pack cfg inputs).sheets := by
    unfold resultBins
    rw [foldl_len_sum, Nat.zero_add]
  have hs2 : ((resultBins (pack cfg inputs)).filter
        (fun b => !decide (b.length = 0))).length
      = (pack cfg inputs).sheets.length := by
    unfold resultBins
    rw [nonempty_filter_eq hne, List.length_map]
  refine ⟨pack_ids_perm cfg inputs, hcount, ?_, rfl, ?_, ?_⟩
  · show (resultBins (pack cfg inputs)).foldl (fun acc b => acc + b.length) 0 = _
    exact hp2
  · show ((resultBins (pack cfg inputs)).filter
        (fun b => !decide (b.length = 0))).length = _
    exact hs2
  · show (if (resultBins (pack cfg inputs)).foldl (fun acc b => acc + b.length) 0
          < inputs.length
        then some (inputs.length -
          (resultBins (pack cfg inputs)).foldl (fun acc b => acc + b.length) 0)
        else none) = _
    rw [hp2]
    by_cases hz : (pack cfg inputs).unplaced.length = 0
    · rw [if_neg (by omega), if_pos hz]
    · rw [if_pos (by omega), if_neg hz, Option.some.injEq]
      omega

/-! ## Sheet cap -/
theorem tryPlaceOnSheets_length {rot : Bool} {p : Piece} :
    ∀ {ss ss2 : List Sheet}, tryPlaceOnSheets rot p ss = some ss2 →
      ss2.length = ss.length := by
  intro ss
  induction ss with
  | nil =>
    intro ss2 h
    cases h
  | cons s rest ih =>
    intro ss2 h
    unfold tryPlaceOnSheets at h
    cases hts : tryPlaceOnSheet rot p s with
    | some s2 =>
      rw [hts, Option.some.injEq] at h
      subst h
      rfl
    | none =>
      rw [hts] at h
      cases hrest : tryPlaceOnSheets rot p rest with
      | none =>
        rw [hrest] at h
        cases h
      | some l2 =>
        rw [hrest, Option.map_some', Option.some.injEq] at h
        subst h
        simp [ih hrest]

theorem placePiece_sheets_le {cfg : Config} {st : PackingResult} {p : Piece}
    (h : st.sheets.length ≤ cfg.maxSheets) :
    (placePiece cfg st p).sheets.length ≤ cfg.maxSheets := by
  unfold placePiece
  cases hts : tryPlaceOnSheets cfg.rotation p st.sheets with
  | some sheets2 =>
    show sheets2.length ≤ _
    rw [tryPlaceOnSheets_length hts]
    exact h
  | none =>
    by_cases hlt : st.sheets.length < cfg.maxSheets
    · rw [if_pos hlt]
      cases hns : tryPlaceOnSheet cfg.rotation p (newSheet cfg) with
      | some s2 =>
        show (st.sheets ++ [s2]).length ≤ _
        rw [List.length_append]
        exact hlt
      | none => exact h
    · rw [if_neg hlt]
      exact h

theorem foldl_sheets_le (cfg : Config) :
    ∀ (ps : List Piece) (st : PackingResult),
      st.sheets.length ≤ cfg.maxSheets →
      ((ps.foldl (placePiece cfg) st).sheets.length ≤ cfg.maxSheets) := by
  intro ps
  induction ps with
  | nil =>
    intro st h
    exact h
  | cons p rest ih =>
    intro st h
    exact ih (placePiece cfg st p) (placePiece_sheets_le h)

/-- Claim C4: for every run and every configured `max_sheets`, the number of
sheets used never exceeds the cap, and the run still returns a
complete result accounting for every input piece — unplaceable pieces
go to the unplaced set instead of aborting the run. -/
theorem c4_sheet_cap (cfg : Config) (inputs : List (ℚ × ℚ)) :
    (pack cfg inputs).sheets.length ≤ cfg.maxSheets ∧
      placedCount (pack cfg inputs).sheets + (pack cfg inputs).unplaced.length
        = inputs.length := by
  constructor
  · unfold pack
    exact foldl_sheets_le cfg _ ⟨[], []⟩ (Nat.zero_le _)
  · exact pack_count cfg inputs

/-- The placement created for a piece carries the piece's dimensions in
one of the two admissible orientations. -/
theorem tryPlaceOnSheet_orient {rot : Bool} {p : Piece} {s s2 : Sheet}
    (h : tryPlaceOnSheet rot p s = some s2) :
    ∃ pl : Placement, s2.placements = s.placements ++ [pl] ∧
      pl.pieceId = p.id ∧
      ((pl.pw = p.w ∧ pl.ph = p.h ∧ pl.rotated = false) ∨
       (rot = true ∧ pl.pw = p.h ∧ pl.ph = p.w ∧ pl.rotated = true)) := by
  unfold tryPlaceOnSheet at h
  cases hp : pickBest (candidates rot p.w p.h s.freeRects) with
  | none =>
    rw [hp] at h
    cases h
  | some c =>
    obtain ⟨_, _, _, hor⟩ := mem_candidates (pickBest_mem hp)
    rw [hp, Option.some.injEq] at h
    subst h
    exact ⟨⟨p.id, c.free.x, c.free.y, c.pw, c.ph, c.rotated⟩, rfl, rfl, hor⟩

theorem tryPlaceOnSheets_orient {pieces : List Piece} {rot : Bool} {p : Piece}
    (hp : p ∈ pieces) :
    ∀ {ss ss2 : List Sheet}, tryPlaceOnSheets rot p ss = some ss2 →
      OrientFrom pieces rot ss → OrientFrom pieces rot ss2 := by
  intro ss
  induction ss with
  | nil =>
    intro ss2 h
    cases h
  | cons s rest ih =>
    intro ss2 h hall
    unfold tryPlaceOnSheets at h
    cases hts : tryPlaceOnSheet rot p s with
    | some s2 =>
      rw [hts, Option.some.injEq] at h
      subst h
      obtain ⟨pl, hpl, hid, hor⟩ := tryPlaceOnSheet_orient hts
      intro t ht q hq
      rcases List.mem_cons.1 ht with rfl | ht2
      · rw [hpl] at hq
        rcases List.mem_append.1 hq with hq1 | hq1
        · exact hall s (List.mem_cons_self _ _) q hq1
        · rw [List.mem_singleton] at hq1
          subst hq1
          exact ⟨p, hp, hid, hor⟩
      · exact hall t (List.mem_cons_of_mem _ ht2) q hq
    | none =>
      rw [hts] at h
      cases hrest : tryPlaceOnSheets rot p rest with
      | none =>
        rw [hrest] at h
        cases h
      | some l2 =>
        rw [hrest, Option.map_some', Option.some.injEq] at h
        subst h
        have h2 : OrientFrom pieces rot l2 :=
          ih hrest (fun t ht => hall t (List.mem_cons_of_mem _ ht))
        intro t ht q hq
        rcases List.mem_cons.1 ht with rfl | ht2
        · exact hall t (List.mem_cons_self _ _) q hq
        · exact h2 t ht2 q hq

theorem placePiece_orient {cfg : Config} {pieces : List Piece}
    {st : PackingResult} {p : Piece} (hp : p ∈ pieces)
    (h : OrientFrom pieces cfg.rotation st.sheets) :
    OrientFrom pieces cfg.rotation (placePiece cfg st p).sheets := by
  unfold placePiece
  cases hts : tryPlaceOnSheets cfg.rotation p st.sheets with
  | some sheets2 => exact tryPlaceOnSheets_orient hp hts h
  | none =>
    by_cases hlt : st.sheets.length < cfg.maxSheets
    · rw [if_pos hlt]
      cases hns : tryPlaceOnSheet cfg.rotation p (newSheet cfg) with
      | some s2 =>
        obtain ⟨pl, hpl, hid, hor⟩ := tryPlaceOnSheet_orient hns
        dsimp only
        intro t ht q hq
        rcases List.mem_append.1 ht with ht1 | ht1
        · exact h t ht1 q hq
        · rw [List.mem_singleton] at ht1
          subst ht1
          rw [hpl] at hq
          simp only [newSheet, List.nil_append, List.mem_singleton] at hq
          subst hq
          exact ⟨p, hp, hid, hor⟩
      | none => exact h
    · rw [if_neg hlt]
      exact h

theorem foldl_orient (cfg : Config) (pieces : List Piece) :
    ∀ (ps : List Piece) (st : PackingResult), (∀ p ∈ ps, p ∈ pieces) →
      OrientFrom pieces cfg.rotation st.sheets →
      OrientFrom pieces cfg.rotation ((ps.foldl (placePiece cfg) st).sheets) := by
  intro ps
  induction ps with
  | nil =>
    intro st _ h
    exact h
  | cons p rest ih =>
    intro st hin h
    exact ih (placePiece cfg st p)
      (fun q hq => hin q (List.mem_cons_of_mem _ hq))
      (placePiece_orient (hin p (List.mem_cons_self _ _)) h)

/-- Every placement of a run refers back to an input index whose pair
of dimensions it uses, rotated only when the configuration allows. -/
theorem pack_orient (cfg : Config) (inputs : List (ℚ × ℚ)) :
    ∀ s ∈ (pack cfg inputs).sheets, ∀ pl ∈ s.placements,
      ∃ w h : ℚ, inputs[pl.pieceId]? = some (w, h) ∧
        ((pl.pw = w ∧ pl.ph = h ∧ pl.rotated = false) ∨
         (cfg.rotation = true ∧ pl.pw = h ∧ pl.ph = w ∧ pl.rotated = true)) := by
  intro s hs pl hpl
  have hor : OrientFrom (inputs.enum.map
      (fun q => (⟨q.1, q.2.1, q.2.2⟩ : Piece))) cfg.rotation
      (pack cfg inputs).sheets := by
    unfold pack
    apply foldl_orient
    · intro p hp0
      exact (sortPieces_perm _).mem_iff.1 hp0
    · intro t ht
      cases ht
  obtain ⟨p, hp, hid, hrest⟩ := hor s hs pl hpl
  obtain ⟨q, hq, hfq⟩ := List.mem_map.1 hp
  obtain ⟨q1, q2⟩ := q
  have hq2 := List.mem_enum hq
  refine ⟨p.w, p.h, ?_, ?_⟩
  · rw [hid, ← hfq]
    show inputs[q1]? = _
    rw [List.getElem?_eq_getElem hq2.1, ← hq2.2]
  · rw [← hfq] at hrest ⊢
    exact hrest

/-- Claim C3: the placed width/height pair of every placement is a
permutation of the original piece's width/height pair; and when
rotation is disabled in the configuration, every placement is
unrotated with its dimensions unswapped. -/
theorem c3_orientation :
    (∀ (cfg : Config) (inputs : List (ℚ × ℚ)),
      (pack cfg inputs).sheets.Forall (fun s => s.placements.Forall (fun pl =>
        ∃ w h : ℚ, inputs[pl.pieceId]? = some (w, h) ∧
          ((pl.pw = w ∧ pl.ph = h) ∨ (pl.pw = h ∧ pl.ph = w))))) ∧
    (∀ (W H : ℚ) (ms : ℕ) (inputs : List (ℚ × ℚ)),
      (pack ⟨W, H, false, ms⟩ inputs).sheets.Forall (fun s =>
        s.placements.Forall (fun pl =>
          pl.rotated = false ∧
          ∃ w h : ℚ, inputs[pl.pieceId]? = some (w, h) ∧
            pl.pw = w ∧ pl.ph = h))) := by
  constructor
  · intro cfg inputs
    rw [List.forall_iff_forall_mem]
    intro s hs
    rw [List.forall_iff_forall_mem]
    intro pl hpl
    obtain ⟨w, h, hget, hor⟩ := pack_orient cfg inputs s hs pl hpl
    rcases hor with ⟨h1, h2, _⟩ | ⟨_, h1, h2, _⟩
    · exact ⟨w, h, hget, Or.inl ⟨h1, h2⟩⟩
    · exact ⟨w, h, hget, Or.inr ⟨h1, h2⟩⟩
  · intro W H ms inputs
    rw [List.forall_iff_forall_mem]
    intro s hs
    rw [List.forall_iff_forall_mem]
    intro pl hpl
    obtain ⟨w, h, hget, hor⟩ := pack_orient ⟨W, H, false, ms⟩ inputs s hs pl hpl
    rcases hor with ⟨h1, h2, h3⟩ | ⟨hfalse, _⟩
    · exact ⟨h3, w, h, hget, h1, h2⟩
    · cases hfalse

/-! ## Ingestion theorems -/
/-- Claim C9: an uploaded non-empty line with no comma whose sole field
parses as a float hits an uncaught `IndexError` on the missing second
field (only `ValueError` is caught), aborting the entire import. -/
theorem c9_index_error (prior : List (ℚ × ℚ)) (f : Field) (w : ℚ)
    (hw : f.asFloat = some w) (rest : List Line) :
    processLine [f] = LineResult.indexError ∧
      processUpload prior (⟨false, [f]⟩ :: rest) = Except.error () := by
  have h1 : processLine [f] = LineResult.indexError := by
    unfold processLine
    simp [hw]
  refine ⟨h1, ?_⟩
  show processLines [] (⟨false, [f]⟩ :: rest) = Except.error ()
  unfold processLines
  rw [if_neg (by simp)]
  rw [h1]

theorem c9_witness :
    (floatF 42).asFloat = some 42 ∧
      (processLine [floatF 42] = LineResult.indexError ∧
        processUpload [] [⟨false, [floatF 42]⟩] = Except.error ()) :=
  ⟨rfl, c9_index_error [] (floatF 42) 42 rfl []⟩

/-- A successful run of the import loop returns the accumulator
followed by the pieces parsed from the remaining non-blank lines. -/
theorem processLines_ok :
    ∀ (lines : List Line) (acc ps : List (ℚ × ℚ)),
      processLines acc lines = Except.ok ps → ps = acc ++ parsedPieces lines := by
  intro lines
  induction lines with
  | nil =>
    intro acc ps h
    rw [processLines, Except.ok.injEq] at h
    subst h
    simp [parsedPieces]
  | cons l rest ih =>
    intro acc ps h
    rw [processLines] at h
    by_cases hb : l.blank = true
    · rw [if_pos hb] at h
      rw [ih acc ps h]
      simp [parsedPieces, hb]
    · rw [if_neg hb] at h
      cases hl : processLine l.fields with
      | indexError =>
        rw [hl] at h
        cases h
      | pieces qs =>
        rw [hl] at h
        rw [ih (acc ++ qs) ps h]
        simp [parsedPieces, hb, hl, piecesOf]

/-- Claim C10: the upload handler clears the session cut list before
appending, so its outcome is independent of the prior list; after a
successful import the cut list is exactly the pieces parsed from the
file's non-blank lines; and a line with exactly two float fields
contributes one `(w, h)` piece — the quantity defaults to 1 when the
third field is absent. -/
theorem c10_import_replaces (prior prior2 : List (ℚ × ℚ)) (lines : List Line) :
    processUpload prior lines = processUpload prior2 lines ∧
    (∀ ps, processUpload prior lines = Except.ok ps → ps = parsedPieces lines) ∧
    (∀ (w h : ℚ) (f g : Field), f.asFloat = some w → g.asFloat = some h →
      processLine [f, g] = LineResult.pieces [(w, h)]) := by
  refine ⟨rfl, ?_, ?_⟩
  · intro ps h
    exact processLines_ok lines [] ps h
  · intro w h f g hf hg
    unfold processLine
    simp [hf, hg]

theorem c10_witness :
    processUpload [(1, 1)] [⟨false, [floatF 24, floatF 36]⟩, ⟨true, []⟩]
        = processUpload [] [⟨false, [floatF 24, floatF 36]⟩, ⟨true, []⟩] ∧
      processUpload [(1, 1)] [⟨false, [floatF 24, floatF 36]⟩, ⟨true, []⟩]
        = Except.ok [(24, 36)] ∧
      [(24, 36)] = parsedPieces [⟨false, [floatF 24, floatF 36]⟩, ⟨true, []⟩] ∧
      (floatF 24).asFloat = some 24 ∧
      processLine [floatF 24, floatF 36] = LineResult.pieces [(24, 36)] := by
  obtain ⟨h1, h2, h3⟩ :=
    c10_import_replaces [(1, 1)] []
      [⟨false, [floatF 24, floatF 36]⟩, ⟨true, []⟩]
  refine ⟨h1, rfl, h2 [(24, 36)] rfl, rfl, h3 24 36 (floatF 24) (floatF 36) rfl rfl⟩

/-- Claim C5 counterexample: a negative width is not rejected by the upload
parser — a line whose fields are the numbers -5 and 10 is appended to
the cut list as a piece of width -5, reaching the packing core. -/
theorem c5_cex :
    processUpload [] [⟨false, [floatF (-5), floatF 10]⟩]
        = Except.ok [(-5, 10)] ∧
      ¬ (0 < (-5 : ℚ)) := by
  constructor
  · rfl
  · norm_num

/-- Claim C5 amended: non-numeric entries are rejected before reaching the
packing core — a line whose first or second field does not parse as a
float is skipped via the caught `ValueError` and contributes no
pieces; non-positive numeric dimensions, however, are not rejected. -/
theorem c5_nonnumeric_rejected (parts : List Field) :
    (∀ f0, parts[0]? = some f0 → f0.asFloat = none →
      processLine parts = LineResult.pieces []) ∧
    (∀ f0 f1 w, parts[0]? = some f0 → f0.asFloat = some w →
      parts[1]? = some f1 → f1.asFloat = none →
      processLine parts = LineResult.pieces []) := by
  constructor
  · intro f0 h0 hf
    unfold processLine
    simp [h0, hf]
  · intro f0 f1 w h0 hf h1 hg
    unfold processLine
    simp [h0, hf, h1, hg]

theorem c5_witness :
    ([badF, floatF 3][0]? = some badF ∧ badF.asFloat = none ∧
      processLine [badF, floatF 3] = LineResult.pieces []) ∧
    ([floatF 3, badF][0]? = some (floatF 3) ∧ (floatF 3).asFloat = some 3 ∧
      [floatF 3, badF][1]? = some badF ∧ badF.asFloat = none ∧
      processLine [floatF 3, badF] = LineResult.pieces []) :=
  ⟨⟨rfl, rfl, (c5_nonnumeric_rejected [badF, floatF 3]).1 badF rfl rfl⟩,
   ⟨rfl, rfl, rfl, rfl,
     (c5_nonnumeric_rejected [floatF 3, badF]).2 (floatF 3) badF 3 rfl rfl rfl rfl⟩⟩

/-! ## Statistics theorems -/
theorem foldl_add_map_sum (f : Rect → ℚ) :
    ∀ (l : List Rect) (a : ℚ),
      l.foldl (fun acc r => acc + f r) a = a + (l.map f).sum := by
  intro l
  induction l with
  | nil =>
    intro a
    simp
  | cons r rest ih =>
    intro a
    simp only [List.foldl_cons, List.map_cons, List.sum_cons, ih]
    ring

/-- Claim C6: every row of the summary table satisfies the Stats Aggregator
equations with respect to its source bin: `used_area` is the sum of
the placed rectangles' areas, `total_area` is the sheet area, the
utilization percentage is `100 × used_area / total_area`, and the
waste percentage is its complement to 100. -/
theorem c6_sheet_stats (W H : ℚ) (bins : List (List Rect)) :
    (drawResults W H bins).Forall (fun row =>
      ∃ abin ∈ bins, abin ≠ [] ∧
        row.itemsPacked = abin.length ∧
        row.usedArea = (abin.map (fun r => r.w * r.h)).sum ∧
        row.totalArea = W * H ∧
        row.utilizationPct = 100 * row.usedArea / row.totalArea ∧
        row.wastePct = 100 - row.utilizationPct) := by
  rw [List.forall_iff_forall_mem]
  intro row hrow
  unfold drawResults at hrow
  obtain ⟨q, hq, hrow⟩ := List.mem_map.1 hrow
  obtain ⟨hq1, hq2⟩ := List.mem_filter.1 hq
  obtain ⟨i, abin⟩ := q
  have hmem := List.mem_enum hq1
  have habin : abin ∈ bins := by
    rw [hmem.2]
    exact List.getElem_mem _
  have hne : abin ≠ [] := by
    simp only [Bool.not_eq_true', decide_eq_false_iff_not] at hq2
    exact fun hnil => hq2 (by rw [hnil]; rfl)
  subst hrow
  refine ⟨abin, habin, hne, rfl, ?_, rfl, ?_, rfl⟩
  · show abin.foldl (fun acc r => acc + r.w * r.h) 0 = _
    rw [foldl_add_map_sum (fun r => r.w * r.h) abin 0, zero_add]
  · show abin.foldl (fun acc r => acc + r.w * r.h) 0 / (W * H) * 100
        = 100 * (abin.foldl (fun acc r => acc + r.w * r.h) 0) / (W * H)
    ring

/-- Mapping an index-independent projection over the summary rows
agrees with mapping the corresponding bin function over the non-empty
bins. -/
theorem enumFrom_filter_map_eq {β : Type} (W H : ℚ) (f : SummaryRow → β)
    (g : List Rect → β) (hf : ∀ (i : ℕ) (abin : List Rect), f (binRow W H i abin) = g abin) :
    ∀ (bins : List (List Rect)) (n : ℕ),
      ((bins.enumFrom n).filter (fun q => !decide (q.2.length = 0))).map
          (fun q => f (binRow W H q.1 q.2))
        = (bins.filter (fun b => !decide (b.length = 0))).map g := by
  intro bins
  induction bins with
  | nil =>
    intro n
    rfl
  | cons b rest ih =>
    intro n
    show ((((n, b) :: rest.enumFrom (n + 1)).filter _)).map _ = _
    by_cases hb : b.length = 0
    · simp only [List.filter_cons]
      rw [if_neg (by simp [hb]), if_neg (by simp [hb])]
      exact ih (n + 1)
    · simp only [List.filter_cons]
      rw [if_pos (by simp [hb]), if_pos (by simp [hb])]
      simp only [List.map_cons]
      rw [ih (n + 1)]
      show f (binRow W H n b) :: _ = g b :: _
      rw [hf n b]

theorem drawResults_map {β : Type} (W H : ℚ) (f : SummaryRow → β)
    (g : List Rect → β)
    (hf : ∀ (i : ℕ) (abin : List Rect), f (binRow W H i abin) = g abin)
    (bins : List (List Rect)) :
    (drawResults W H bins).map f
      = (bins.filter (fun b => !decide (b.length = 0))).map g := by
  unfold drawResults
  rw [List.map_map]
  exact enumFrom_filter_map_eq W H f g hf bins 0

/-- Claim C7: when at least one bin is non-empty, the summary reports one
row per non-empty bin, and the overall utilization equals
`100 × Σ used_area / Σ total_area` over exactly those bins. -/
theorem c7_overall_utilization (W H : ℚ) (bins : List (List Rect))
    (hne : ∃ b ∈ bins, b ≠ []) :
    (drawResults W H bins).length
        = (bins.filter (fun b => !decide (b.length = 0))).length ∧
      overallUtilization (drawResults W H bins) =
        some (100 * ((bins.filter (fun b => !decide (b.length = 0))).map
              (fun b => (b.map (fun r => r.w * r.h)).sum)).sum /
            ((bins.filter (fun b => !decide (b.length = 0))).map
              (fun _ => W * H)).sum) := by
  have hused : (drawResults W H bins).map (fun r => r.usedArea)
      = (bins.filter (fun b => !decide (b.length = 0))).map
          (fun b => (b.map (fun r => r.w * r.h)).sum) := by
    refine drawResults_map W H _ _ ?_ bins
    intro i abin
    show abin.foldl (fun acc r => acc + r.w * r.h) 0 = _
    rw [foldl_add_map_sum (fun r => r.w * r.h) abin 0, zero_add]
  have htot : (drawResults W H bins).map (fun r => r.totalArea)
      = (bins.filter (fun b => !decide (b.length = 0))).map (fun _ => W * H) := by
    refine drawResults_map W H _ _ ?_ bins
    intro i abin
    rfl
  have hlen : (drawResults W H bins).length
      = (bins.filter (fun b => !decide (b.length = 0))).length := by
    have h1 := congrArg List.length hused
    rwa [List.length_map, List.length_map] at h1
  refine ⟨hlen, ?_⟩
  obtain ⟨b, hb, hbne⟩ := hne
  have hfilter : b ∈ bins.filter (fun b => !decide (b.length = 0)) := by
    rw [List.mem_filter]
    refine ⟨hb, ?_⟩
    simp only [Bool.not_eq_true', decide_eq_false_iff_not]
    exact fun h0 => hbne (List.length_eq_zero.1 h0)
  have hpos : 0 < (drawResults W H bins).length := by
    rw [hlen]
    exact List.length_pos.2 (List.ne_nil_of_mem hfilter)
  unfold overallUtilization
  rw [if_neg (by
    intro hemp
    rw [List.isEmpty_iff] at hemp
    rw [hemp] at hpos
    exact Nat.lt_irrefl 0 hpos)]
  rw [hused, htot, Option.some.injEq]
  ring

theorem c7_witness :
    (∃ b ∈ [[(⟨0, 0, 24, 24⟩ : Rect)], []], b ≠ []) ∧
      ((drawResults 72 84 [[(⟨0, 0, 24, 24⟩ : Rect)], []]).length
          = (([[(⟨0, 0, 24, 24⟩ : Rect)], []]).filter
              (fun b => !decide (b.length = 0))).length ∧
        overallUtilization (drawResults 72 84 [[(⟨0, 0, 24, 24⟩ : Rect)], []]) =
          some (100 * ((([[(⟨0, 0, 24, 24⟩ : Rect)], []]).filter
                (fun b => !decide (b.length = 0))).map
                (fun b => (b.map (fun r => r.w * r.h)).sum)).sum /
              ((([[(⟨0, 0, 24, 24⟩ : Rect)], []]).filter
                (fun b => !decide (b.length = 0))).map
                (fun _ => (72 : ℚ) * 84)).sum)) :=
  ⟨⟨[⟨0, 0, 24, 24⟩], by simp, by simp⟩,
   c7_overall_utilization 72 84 [[(⟨0, 0, 24, 24⟩ : Rect)], []]
     ⟨[⟨0, 0, 24, 24⟩], by simp, by simp⟩⟩

/-- Claim C8 counterexample: for a run with zero non-empty sheets the
summary block is skipped — no overall utilization value is produced,
in particular it is not reported as 0%. -/
theorem c8_cex :
    overallUtilization (drawResults 72 84 []) = none ∧
      (none : Option ℚ) ≠ some 0 := by
  refine ⟨rfl, ?_⟩
  intro h
  cases h

theorem replicate_nil_filter (k : ℕ) :
    ∀ (m : ℕ), ((List.replicate k ([] : List Rect)).enumFrom m).filter
        (fun q => !decide (q.2.length = 0)) = [] := by
  induction k with
  | zero =>
    intro m
    rfl
  | succ j ih =>
    intro m
    show (((m, ([] : List Rect)) :: (List.replicate j ([] : List Rect)).enumFrom (m + 1)).filter _) = []
    simp only [List.filter_cons]
    rw [if_neg (by simp)]
    exact ih (m + 1)

/-- Claim C8 amended: an empty catalog produces zero sheets and an empty
unplaced set; with zero non-empty bins the summary is empty and the
guarded statistics block computes nothing — no division by zero
occurs, and no overall utilization value (not even 0%) is produced. -/
theorem c8_empty_run (cfg : Config) (W H : ℚ) (k : ℕ) :
    pack cfg [] = ⟨[], []⟩ ∧
      drawResults W H (List.replicate k []) = [] ∧
      overallUtilization (drawResults W H (List.replicate k [])) = none := by
  have h2 : drawResults W H (List.replicate k []) = [] := by
    unfold drawResults
    show (((List.replicate k ([] : List Rect)).enumFrom 0).filter _).map _ = []
    rw [replicate_nil_filter k 0]
    rfl
  exact ⟨rfl, h2, by rw [h2]; rfl⟩

end GlassOpt
